import Mathlib

/-!
# Verification of the ORchestrator.ai scheduling engine core

Shallow embedding of `src/main.py` (FastAPI scheduling MVP): the data model
(Provider / ShiftType / Assignment), the creation endpoints, and the
round-robin schedule generator `generate_schedule`, together with proofs of
the behavioural properties stated in the design document.

Dates: the Python code manipulates `datetime.date` values through
`toordinal` / `fromordinal` and stores dates as ISO strings (`str(day_date)`).
We model a date by its proleptic-Gregorian ordinal (a `Nat`, 1 = 0001-01-01)
and reproduce CPython's `_ord2ymd` conversion and the `%04d-%02d-%02d`
rendering exactly, so that string-level facts about stored assignment dates
and conflict messages can be proved faithfully.
-/

namespace Orchestrator

/-! ## Calendar arithmetic (CPython `datetime` internals) -/

/-- `_DAYS_BEFORE_MONTH[m]`: days in a non-leap year strictly before month `m`
(1-indexed, months 1..12). -/
def daysBeforeMonthTbl : Nat → Nat
  | 1 => 0
  | 2 => 31
  | 3 => 59
  | 4 => 90
  | 5 => 120
  | 6 => 151
  | 7 => 181
  | 8 => 212
  | 9 => 243
  | 10 => 273
  | 11 => 304
  | 12 => 334
  | _ => 0

/-- `_DAYS_IN_MONTH[m]`: length of month `m` in a non-leap year. -/
def daysInMonthTbl : Nat → Nat
  | 1 => 31
  | 2 => 28
  | 3 => 31
  | 4 => 30
  | 5 => 31
  | 6 => 30
  | 7 => 31
  | 8 => 31
  | 9 => 30
  | 10 => 31
  | 11 => 30
  | 12 => 31
  | _ => 0

/-- Gregorian leap-year test (`_is_leap` in CPython). -/
def isLeap (y : Nat) : Prop := y % 4 = 0 ∧ (y % 100 ≠ 0 ∨ y % 400 = 0)

instance (y : Nat) : Decidable (isLeap y) := by unfold isLeap; infer_instance

/-- `_days_before_year(y)`: days strictly before January 1 of year `y`. -/
def daysBeforeYear (y : Nat) : Nat :=
  365 * (y - 1) + (y - 1) / 4 - (y - 1) / 100 + (y - 1) / 400

/-- `_days_before_month(y, m)`. -/
def daysBeforeMonth (y m : Nat) : Nat :=
  daysBeforeMonthTbl m + (if 2 < m ∧ isLeap y then 1 else 0)

/-- `_ymd2ord(y, m, d)`: ordinal of the date `y-m-d`. -/
def ymd2ord (y m d : Nat) : Nat :=
  daysBeforeYear y + daysBeforeMonth y m + d

/-- `_ord2ymd(n)`: year/month/day of ordinal `n` (CPython's algorithm,
400/100/4/1-year cycle decomposition). -/
def ord2ymd (nn : Nat) : Nat × Nat × Nat :=
  let n := nn - 1
  let n400 := n / 146097
  let r1 := n % 146097
  let n100 := r1 / 36524
  let r2 := r1 % 36524
  let n4 := r2 / 1461
  let r3 := r2 % 1461
  let n1 := r3 / 365
  let r4 := r3 % 365
  let year := n400 * 400 + n100 * 100 + n4 * 4 + n1 + 1
  if n1 = 4 ∨ n100 = 4 then
    (year - 1, 12, 31)
  else
    let leap := n1 = 3 ∧ (n4 ≠ 24 ∨ n100 = 3)
    let month := (r4 + 50) / 32
    let preceding := daysBeforeMonthTbl month + (if 2 < month ∧ leap then 1 else 0)
    if r4 < preceding then
      let month' := month - 1
      let preceding' :=
        preceding - (daysInMonthTbl month' + (if month' = 2 ∧ leap then 1 else 0))
      (year, month', r4 - preceding' + 1)
    else
      (year, month, r4 - preceding + 1)

/-- Largest ordinal representable by Python's `datetime.date` (9999-12-31). -/
def maxOrdinal : Nat := 3652059

/-- The month correction step of `_ord2ymd`: subtracting the estimated month's
length from its `preceding` count lands exactly on the previous month's
`preceding` count, which is at most the day-of-year remainder. -/
theorem preceding_adjust (r4 : Nat) (L : Prop) [Decidable L] (month : Nat)
    (hm : (r4 + 50) / 32 = month) (hr4 : r4 ≤ 364)
    (hadj : r4 < daysBeforeMonthTbl month + (if 2 < month ∧ L then 1 else 0)) :
    (daysBeforeMonthTbl month + (if 2 < month ∧ L then 1 else 0))
        - (daysInMonthTbl (month - 1) + (if month - 1 = 2 ∧ L then 1 else 0))
      = daysBeforeMonthTbl (month - 1) + (if 2 < month - 1 ∧ L then 1 else 0)
    ∧ daysBeforeMonthTbl (month - 1) + (if 2 < month - 1 ∧ L then 1 else 0) ≤ r4 := by
  have h1 : 1 ≤ month := by omega
  have h12 : month ≤ 12 := by omega
  interval_cases month <;> by_cases hL : L <;>
    (try simp [daysBeforeMonthTbl, daysInMonthTbl, hL] at *) <;> omega

set_option maxHeartbeats 1600000 in
theorem ymd2ord_ord2ymd (n : Nat) (h1 : 1 ≤ n) :
    ymd2ord (ord2ymd n).1 (ord2ymd n).2.1 (ord2ymd n).2.2 = n := by
  obtain ⟨n400, n100, n4, n1, r4, e400, e100, e4, e1, er4⟩ :
      ∃ n400 n100 n4 n1 r4 : Nat,
        (n - 1) / 146097 = n400 ∧
        (n - 1) % 146097 / 36524 = n100 ∧
        (n - 1) % 146097 % 36524 / 1461 = n4 ∧
        (n - 1) % 146097 % 36524 % 1461 / 365 = n1 ∧
        (n - 1) % 146097 % 36524 % 1461 % 365 = r4 :=
    ⟨_, _, _, _, _, rfl, rfl, rfl, rfl, rfl⟩
  have hn : n - 1 = 146097 * n400 + 36524 * n100 + 1461 * n4 + 365 * n1 + r4 := by
    omega
  have hb100 : n100 ≤ 4 := by omega
  have hb4 : n4 ≤ 24 := by omega
  have hb1 : n1 ≤ 4 := by omega
  have hbr4 : r4 ≤ 364 := by omega
  have hc1 : n1 = 4 → r4 = 0 ∧ n4 ≤ 23 := by omega
  have hc2 : n100 = 4 → n4 = 0 ∧ n1 = 0 ∧ r4 = 0 := by omega
  simp only [ord2ymd]
  rw [er4, e1, e4, e100, e400]
  clear e400 e100 e4 e1 er4
  split
  case isTrue hA =>
    -- last day of a 4-year or 400-year cycle: December 31 of a leap year
    dsimp only
    unfold ymd2ord daysBeforeYear daysBeforeMonth
    norm_num [daysBeforeMonthTbl]
    split
    case isTrue hleap => unfold isLeap at hleap; rcases hA with h4 | h4 <;> omega
    case isFalse hleap => unfold isLeap at hleap; rcases hA with h4 | h4 <;> omega
  case isFalse hA =>
    -- interior of a 4-year cycle: `preceding` cancels between the two directions
    push_neg at hA
    have hy : daysBeforeYear (n400 * 400 + n100 * 100 + n4 * 4 + n1 + 1) + r4 + 1 = n := by
      unfold daysBeforeYear; omega
    have hiff : (n1 = 3 ∧ (n4 ≠ 24 ∨ n100 = 3)) ↔
        isLeap (n400 * 400 + n100 * 100 + n4 * 4 + n1 + 1) := by
      unfold isLeap; omega
    generalize hm : (r4 + 50) / 32 = month
    by_cases hadj : r4 < daysBeforeMonthTbl month +
        (if 2 < month ∧ (n1 = 3 ∧ (n4 ≠ 24 ∨ n100 = 3)) then 1 else 0)
    · rw [if_pos hadj]
      dsimp only
      obtain ⟨heq, hle⟩ := preceding_adjust r4 _ month hm hbr4 hadj
      rw [heq]
      unfold ymd2ord daysBeforeMonth
      simp only [← hiff]
      revert hle
      generalize daysBeforeMonthTbl (month - 1) +
        (if 2 < month - 1 ∧ (n1 = 3 ∧ (n4 ≠ 24 ∨ n100 = 3)) then 1 else 0) = q
      intro hle
      omega
    · rw [if_neg hadj]
      dsimp only
      unfold ymd2ord daysBeforeMonth
      simp only [← hiff]
      revert hadj
      generalize daysBeforeMonthTbl month +
        (if 2 < month ∧ (n1 = 3 ∧ (n4 ≠ 24 ∨ n100 = 3)) then 1 else 0) = q
      intro hadj
      omega

/-- Bound on the day-of-month produced by the month estimate: the rendered day
always fits in two digits (both in the corrected and uncorrected month case). -/
theorem day_bound (r4 : Nat) (L : Prop) [Decidable L] (month : Nat)
    (hm : (r4 + 50) / 32 = month) (hr4 : r4 ≤ 364) :
    r4 - (daysBeforeMonthTbl month + (if 2 < month ∧ L then 1 else 0)) + 1 ≤ 99 ∧
    r4 - (daysBeforeMonthTbl (month - 1) + (if 2 < month - 1 ∧ L then 1 else 0)) + 1 ≤ 99 := by
  have h1 : 1 ≤ month := by omega
  have h12 : month ≤ 12 := by omega
  interval_cases month <;> by_cases hL : L <;>
    (try simp [daysBeforeMonthTbl, hL] at *) <;> omega

/-- For ordinals in `datetime.date`'s range, the year has at most four digits
and month and day at most two. -/
theorem ord2ymd_bounds (n : Nat) (h1 : 1 ≤ n) (h2 : n ≤ maxOrdinal) :
    (ord2ymd n).1 ≤ 9999 ∧ (ord2ymd n).2.1 ≤ 99 ∧ (ord2ymd n).2.2 ≤ 99 := by
  unfold maxOrdinal at h2
  obtain ⟨n400, n100, n4, n1, r4, e400, e100, e4, e1, er4⟩ :
      ∃ n400 n100 n4 n1 r4 : Nat,
        (n - 1) / 146097 = n400 ∧
        (n - 1) % 146097 / 36524 = n100 ∧
        (n - 1) % 146097 % 36524 / 1461 = n4 ∧
        (n - 1) % 146097 % 36524 % 1461 / 365 = n1 ∧
        (n - 1) % 146097 % 36524 % 1461 % 365 = r4 :=
    ⟨_, _, _, _, _, rfl, rfl, rfl, rfl, rfl⟩
  have hn : n - 1 = 146097 * n400 + 36524 * n100 + 1461 * n4 + 365 * n1 + r4 := by
    omega
  have hb100 : n100 ≤ 4 := by omega
  have hb4 : n4 ≤ 24 := by omega
  have hb1 : n1 ≤ 4 := by omega
  have hbr4 : r4 ≤ 364 := by omega
  have hc1 : n1 = 4 → r4 = 0 ∧ n4 ≤ 23 := by omega
  have hc2 : n100 = 4 → n4 = 0 ∧ n1 = 0 ∧ r4 = 0 := by omega
  have hc3 : n4 = 24 → 365 * n1 + r4 ≤ 1459 := by omega
  simp only [ord2ymd]
  rw [er4, e1, e4, e100, e400]
  clear e400 e100 e4 e1 er4
  split
  case isTrue hA =>
    dsimp only
    exact ⟨by omega, by omega, by omega⟩
  case isFalse hA =>
    push_neg at hA
    generalize hm : (r4 + 50) / 32 = month
    by_cases hadj : r4 < daysBeforeMonthTbl month +
        (if 2 < month ∧ (n1 = 3 ∧ (n4 ≠ 24 ∨ n100 = 3)) then 1 else 0)
    · rw [if_pos hadj]
      dsimp only
      obtain ⟨heq, hle⟩ := preceding_adjust r4 _ month hm hbr4 hadj
      rw [heq]
      exact ⟨by omega, by omega, (day_bound r4 _ month hm hbr4).2⟩
    · rw [if_neg hadj]
      dsimp only
      exact ⟨by omega, by omega, (day_bound r4 _ month hm hbr4).1⟩

/-! ## ISO date rendering (`str(day_date)` in the Python code) -/

/-- The ASCII digit character for `k < 10`. -/
def digitChar (k : Nat) : Char := Char.ofNat (48 + k)

/-- `str(date.fromordinal n)` : the `YYYY-MM-DD` ISO rendering (`%04d-%02d-%02d`)
of the date with proleptic-Gregorian ordinal `n`. -/
def dateStr (n : Nat) : String :=
  let y := (ord2ymd n).1
  let m := (ord2ymd n).2.1
  let d := (ord2ymd n).2.2
  String.mk [digitChar (y / 1000 % 10), digitChar (y / 100 % 10),
    digitChar (y / 10 % 10), digitChar (y % 10), '-',
    digitChar (m / 10 % 10), digitChar (m % 10), '-',
    digitChar (d / 10 % 10), digitChar (d % 10)]

theorem digitChar_inj : ∀ a < 10, ∀ b < 10, digitChar a = digitChar b → a = b := by
  decide

/-- Distinct ordinals in `datetime.date`'s range render to distinct ISO strings. -/
theorem dateStr_inj (n n' : Nat) (h1 : 1 ≤ n) (h2 : n ≤ maxOrdinal)
    (h1' : 1 ≤ n') (h2' : n' ≤ maxOrdinal) (h : dateStr n = dateStr n') : n = n' := by
  obtain ⟨hy, hm, hd⟩ := ord2ymd_bounds n h1 h2
  obtain ⟨hy', hm', hd'⟩ := ord2ymd_bounds n' h1' h2'
  unfold dateStr at h
  rw [String.ext_iff] at h
  simp only [List.cons.injEq, eq_self_iff_true, true_and, and_true] at h
  obtain ⟨c1, c2, c3, c4, c5, c6, c7, c8⟩ := h
  have ey : (ord2ymd n).1 = (ord2ymd n').1 := by
    have d1 := digitChar_inj _ (by omega) _ (by omega) c1
    have d2 := digitChar_inj _ (by omega) _ (by omega) c2
    have d3 := digitChar_inj _ (by omega) _ (by omega) c3
    have d4 := digitChar_inj _ (by omega) _ (by omega) c4
    omega
  have em : (ord2ymd n).2.1 = (ord2ymd n').2.1 := by
    have d1 := digitChar_inj _ (by omega) _ (by omega) c5
    have d2 := digitChar_inj _ (by omega) _ (by omega) c6
    omega
  have ed : (ord2ymd n).2.2 = (ord2ymd n').2.2 := by
    have d1 := digitChar_inj _ (by omega) _ (by omega) c7
    have d2 := digitChar_inj _ (by omega) _ (by omega) c8
    omega
  have r1 := ymd2ord_ord2ymd n h1
  have r2 := ymd2ord_ord2ymd n' h1'
  rw [ey, em, ed] at r1
  omega

/-! ## Data model (`src/main.py`, pydantic schemas)

Records enter the store only through the pydantic-validated creation
endpoints, so store documents carry exactly the schema fields. -/

/-- `class Provider(BaseModel)` (src/main.py). -/
structure Provider where
  id : String
  name : String
  call_sign : Option String := none
  fte : Float
  acc_target : Int
  call_target : Int
  site_preferences : List String := []
  qualifications : List String := []
  seniority_level : Int := 0
  politics_weight : Float := 0.0

/-- `class ShiftType(BaseModel)` (src/main.py). -/
structure ShiftType where
  id : String
  name : String
  site : String
  weekly : Bool := false
  requires_qualification : Option String := none

/-- The document inserted into the `assignment` collection by
`generate_schedule` (src/main.py, lines 157-163): dates are stored as ISO
strings. -/
structure AssignmentDoc where
  provider_id : String
  date : String
  shift_type : String
  site : String
  generated_by : String
deriving DecidableEq

/-- Modelled from the spec: the Entity Store (§6; `database.py` is not under
`src/`). It holds the three collections as ordered sequences of records;
`findAll` returns them in store order and `insert` appends. -/
structure Store where
  providers : List Provider
  shiftTypes : List ShiftType
  assignments : List AssignmentDoc

/-- Modelled from the spec: `findOne(collection, filter)` (§6) specialised to
the double-booking lookup
`db[ASSIGN_COL].find_one({"provider_id": ..., "date": ...})` at
src/main.py line 151: the first record matching the filter, if any. -/
def findOneAssignment (assigns : List AssignmentDoc) (pid ds : String) :
    Option AssignmentDoc :=
  assigns.find? (fun a => a.provider_id == pid && a.date == ds)

/-- The FastAPI `HTTPException` payload. -/
structure HTTPError where
  status_code : Nat
  detail : String
deriving DecidableEq

/-! ## Creation endpoints (`src/main.py`) -/

/-- `POST /providers` (`create_provider`, src/main.py lines 81-91): reject a
duplicate identifier, otherwise insert the submitted record. -/
def create_provider (provider : Provider) (store : Store) :
    Except HTTPError Provider × Store :=
  match store.providers.find? (fun p => p.id == provider.id) with
  | some _ => (.error ⟨400, "Provider already exists"⟩, store)
  | none => (.ok provider, { store with providers := store.providers ++ [provider] })

/-- `POST /shift-types` (`create_shift_type`, src/main.py lines 100-108). -/
def create_shift_type (shift : ShiftType) (store : Store) :
    Except HTTPError ShiftType × Store :=
  match store.shiftTypes.find? (fun s => s.id == shift.id) with
  | some _ => (.error ⟨400, "ShiftType already exists"⟩, store)
  | none => (.ok shift, { store with shiftTypes := store.shiftTypes ++ [shift] })

/-! ## The allocator (`generate_schedule`, src/main.py lines 125-168)

Dates are represented by their ordinals (`req.start_date.toordinal() + i`,
`date.fromordinal`), and `str(day_date)` by `dateStr`. -/

/-- The qualification gate at src/main.py line 154:
`if needed_qual and needed_qual not in (prov.get("qualifications") or [])`.
Python truthiness makes `None` *and the empty string* skip the gate. -/
def qualSkip (needed_qual : Option String) (quals : List String) : Bool :=
  match needed_qual with
  | none => false
  | some q => (q != "") && !(quals.contains q)

/-- The conflict message appended at src/main.py line 167. -/
def conflictMsg (ds : String) : String := "No eligible provider for " ++ ds

/-- The document inserted on a successful placement (src/main.py 157-163). -/
def mkAssignment (pid ds site : String) : AssignmentDoc :=
  { provider_id := pid, date := ds, shift_type := "REG", site := site,
    generated_by := "AI" }

/-- The candidate `while` loop (src/main.py lines 145-165): draw
`providers[p % len(providers)]`, advance the cursor, skip a candidate that is
already booked that day or fails the qualification gate, and stop at the
first eligible candidate. The first argument of the recursion is the
remaining try budget (`len(providers) - tries`). -/
def trySlot (provs : List Provider) (needed_qual : Option String) (ds : String)
    (assigns : List AssignmentDoc) : Nat → Nat → Option Provider × Nat
  | 0, p => (none, p)
  | fuel + 1, p =>
    match provs[p % provs.length]? with
    | none => (none, p)
    | some prov =>
      if (findOneAssignment assigns prov.id ds).isSome then
        trySlot provs needed_qual ds assigns fuel (p + 1)
      else if qualSkip needed_qual prov.qualifications then
        trySlot provs needed_qual ds assigns fuel (p + 1)
      else
        (some prov, p + 1)

/-- The mutable state of one generation run: the assignment collection, the
`created` counter, the `conflicts` list and the rotation cursor `p`. -/
structure RunState where
  assigns : List AssignmentDoc
  created : Nat
  conflicts : List String
  p : Nat

/-- One slot (one iteration of `for _ in range(min(len(providers),
len(shifts)))`, src/main.py lines 144-167): run the candidate loop; on
success insert the assignment and bump `created`, on exhaustion (the
`while`'s `else`) append a conflict message. -/
def doSlot (provs : List Provider) (needed_qual : Option String)
    (site ds : String) (st : RunState) : RunState :=
  match trySlot provs needed_qual ds st.assigns provs.length st.p with
  | (some prov, p') =>
    { assigns := st.assigns ++ [mkAssignment prov.id ds site]
      created := st.created + 1
      conflicts := st.conflicts
      p := p' }
  | (none, p') =>
    { st with conflicts := st.conflicts ++ [conflictMsg ds], p := p' }

/-- The slot loop for one day, iterated `min(len(providers), len(shifts))`
times. -/
def doSlots (provs : List Provider) (needed_qual : Option String)
    (site ds : String) : Nat → RunState → RunState
  | 0, st => st
  | k + 1, st => doSlots provs needed_qual site ds k
      (doSlot provs needed_qual site ds st)

/-- The date loop (`for i in range(days)`, src/main.py lines 141-167):
process `days` consecutive ordinals starting at `dayOrd`, threading the run
state (and hence the rotation cursor) from day to day. -/
def runDays (provs : List Provider) (needed_qual : Option String)
    (site : String) (slots : Nat) : Nat → Nat → RunState → RunState
  | 0, _, st => st
  | k + 1, dayOrd, st =>
    runDays provs needed_qual site slots k (dayOrd + 1)
      (doSlots provs needed_qual site (dateStr dayOrd) slots st)

/-- `class GenerateRequest(BaseModel)`: the two dates, as ordinals. -/
structure GenerateRequest where
  start_date : Nat
  end_date : Nat

/-- `class GenerateResponse(BaseModel)`. -/
structure GenerateResponse where
  created : Nat
  conflicts : List String
deriving DecidableEq

/-- `POST /generate` (`generate_schedule`, src/main.py lines 125-168).
Returns the response (or the configuration error) together with the store
after the run; an error leaves the store unchanged. -/
def generate_schedule (req : GenerateRequest) (store : Store) :
    Except HTTPError GenerateResponse × Store :=
  match store.providers, store.shiftTypes.filter (fun s => s.name == "REG") with
  | _ :: _, s0 :: rest =>
    let providers := store.providers
    let shifts := s0 :: rest
    let days : Int := (req.end_date : Int) - (req.start_date : Int) + 1
    let site := s0.site
    let needed_qual := s0.requires_qualification
    let slots := min providers.length shifts.length
    let st := runDays providers needed_qual site slots days.toNat req.start_date
      { assigns := store.assignments, created := 0, conflicts := [], p := 0 }
    (.ok { created := st.created, conflicts := st.conflicts },
      { store with assignments := st.assigns })
  | _, _ => (.error ⟨400, "Providers and REG Shift Type required"⟩, store)

/-! ## Properties of the candidate loop -/

/-- Inversion for a successful candidate search: the returned provider comes
from the provider list, is not yet booked on `ds` (in the assignment state the
search ran against), and passes the qualification gate. -/
theorem trySlot_some (provs : List Provider) (nq : Option String) (ds : String)
    (assigns : List AssignmentDoc) :
    ∀ fuel p prov p', trySlot provs nq ds assigns fuel p = (some prov, p') →
      prov ∈ provs ∧ findOneAssignment assigns prov.id ds = none ∧
        qualSkip nq prov.qualifications = false := by
  intro fuel
  induction fuel with
  | zero => intro p prov p' h; simp [trySlot] at h
  | succ fuel ih =>
    intro p prov p' h
    unfold trySlot at h
    cases hg : provs[p % provs.length]? with
    | none => rw [hg] at h; simp at h
    | some cand =>
      rw [hg] at h
      dsimp only at h
      split_ifs at h with h1 h2
      · exact ih _ _ _ h
      · exact ih _ _ _ h
      · simp only [Prod.mk.injEq, Option.some.injEq] at h
        obtain ⟨rfl, rfl⟩ := h
        refine ⟨List.getElem?_mem hg, ?_, ?_⟩
        · exact Option.not_isSome_iff_eq_none.mp h1
        · exact Bool.not_eq_true _ ▸ Bool.of_not_eq_true h2

theorem findOneAssignment_append_none (l1 l2 : List AssignmentDoc)
    (pid ds : String) (h : findOneAssignment (l1 ++ l2) pid ds = none) :
    findOneAssignment l1 pid ds = none := by
  unfold findOneAssignment at *
  rw [List.find?_append] at h
  cases h1 : List.find? (fun a => a.provider_id == pid && a.date == ds) l1 with
  | none => rfl
  | some a => rw [h1] at h; simp [Option.or] at h

/-! ## The double-booking invariant (no two assignment records share a
provider identifier and a date) -/

/-- No two records of the assignment collection agree on both the provider
identifier and the date. -/
def NoDupKeys (as : List AssignmentDoc) : Prop :=
  as.Pairwise (fun a b => ¬(a.provider_id = b.provider_id ∧ a.date = b.date))

theorem NoDupKeys_append_single (as : List AssignmentDoc) (doc : AssignmentDoc)
    (h : NoDupKeys as) (hf : findOneAssignment as doc.provider_id doc.date = none) :
    NoDupKeys (as ++ [doc]) := by
  unfold NoDupKeys at *
  rw [List.pairwise_append]
  refine ⟨h, by simp, ?_⟩
  intro a ha b hb
  simp only [List.mem_singleton] at hb
  subst hb
  unfold findOneAssignment at hf
  rw [List.find?_eq_none] at hf
  have h2 := hf a ha
  simp only [Bool.and_eq_true, beq_iff_eq, not_and] at h2
  intro hcon
  exact h2 hcon.1 hcon.2

theorem doSlot_noDup (provs : List Provider) (nq : Option String)
    (site ds : String) (st : RunState) (h : NoDupKeys st.assigns) :
    NoDupKeys (doSlot provs nq site ds st).assigns := by
  unfold doSlot
  cases htry : trySlot provs nq ds st.assigns provs.length st.p with
  | mk res p' =>
    cases res with
    | none => exact h
    | some prov =>
      obtain ⟨_, hfree, _⟩ := trySlot_some provs nq ds st.assigns _ _ _ _ htry
      exact NoDupKeys_append_single st.assigns _ h hfree

theorem doSlots_noDup (provs : List Provider) (nq : Option String)
    (site ds : String) :
    ∀ (k : Nat) (st : RunState), NoDupKeys st.assigns →
      NoDupKeys (doSlots provs nq site ds k st).assigns := by
  intro k
  induction k with
  | zero => intro st h; exact h
  | succ k ih =>
    intro st h
    exact ih _ (doSlot_noDup provs nq site ds st h)

theorem runDays_noDup (provs : List Provider) (nq : Option String)
    (site : String) (slots : Nat) :
    ∀ (k a : Nat) (st : RunState), NoDupKeys st.assigns →
      NoDupKeys (runDays provs nq site slots k a st).assigns := by
  intro k
  induction k with
  | zero => intro a st h; exact h
  | succ k ih =>
    intro a st h
    exact ih _ _ (doSlots_noDup provs nq site (dateStr a) slots st h)

/-! ## Characterization of a single-slot generation run

With a single `REG` shift type the slot loop runs exactly once per day, so
each day of the range contributes exactly one outcome: either an inserted
assignment or a conflict message. -/

theorem outcome_count (l : List (Nat × Option AssignmentDoc)) :
    (l.filterMap Prod.snd).length + (l.filter (fun x => x.2.isNone)).length
      = l.length := by
  induction l with
  | nil => simp
  | cons x l ih =>
    cases hx : x.2 with
    | none => simp [List.filterMap_cons, hx, List.filter_cons]; omega
    | some doc => simp [List.filterMap_cons, hx, List.filter_cons]; omega

/-- Per-day outcomes of the date loop with one slot per day: each day `a + i`
of the `k`-day range either inserts one machine-generated `REG` assignment
dated that day (whose provider passed both eligibility checks) or appends its
conflict message; assignments are appended in day order and conflicts in day
order. -/
theorem runDays_spec (provs : List Provider) (nq : Option String)
    (site : String) :
    ∀ (k a : Nat) (st : RunState),
      ∃ os : List (Nat × Option AssignmentDoc),
        os.map Prod.fst = List.range' a k ∧
        (runDays provs nq site 1 k a st).assigns
          = st.assigns ++ os.filterMap Prod.snd ∧
        (runDays provs nq site 1 k a st).conflicts
          = st.conflicts ++ (os.filter (fun x => x.2.isNone)).map
              (fun x => conflictMsg (dateStr x.1)) ∧
        (runDays provs nq site 1 k a st).created
          = st.created + (os.filterMap Prod.snd).length ∧
        ∀ x ∈ os, ∀ doc, x.2 = some doc →
          ∃ prov, prov ∈ provs ∧
            doc = mkAssignment prov.id (dateStr x.1) site ∧
            qualSkip nq prov.qualifications = false ∧
            findOneAssignment st.assigns prov.id (dateStr x.1) = none := by
  intro k
  induction k with
  | zero =>
    intro a st
    exact ⟨[], by simp [List.range'], by simp [runDays], by simp [runDays],
      by simp [runDays], by simp⟩
  | succ k ih =>
    intro a st
    have hrun : runDays provs nq site 1 (k + 1) a st
        = runDays provs nq site 1 k (a + 1)
            (doSlot provs nq site (dateStr a) st) := rfl
    obtain ⟨os', h1, h2, h3, h4, h5⟩ := ih (a + 1) (doSlot provs nq site (dateStr a) st)
    cases htry : trySlot provs nq (dateStr a) st.assigns provs.length st.p with
    | mk res p' =>
      cases res with
      | some prov =>
        have hdo : doSlot provs nq site (dateStr a) st
            = { assigns := st.assigns ++ [mkAssignment prov.id (dateStr a) site],
                created := st.created + 1, conflicts := st.conflicts,
                p := p' } := by
          unfold doSlot
          rw [htry]
        obtain ⟨hmem, hfree, hqual⟩ :=
          trySlot_some provs nq (dateStr a) st.assigns _ _ _ _ htry
        refine ⟨(a, some (mkAssignment prov.id (dateStr a) site)) :: os',
          ?_, ?_, ?_, ?_, ?_⟩
        · simp only [List.map_cons, h1, List.range'_succ]
        · rw [hrun, h2, hdo]
          simp [List.filterMap_cons]
        · rw [hrun, h3, hdo]
          simp [List.filter_cons]
        · rw [hrun, h4, hdo]
          simp [List.filterMap_cons]
          omega
        · intro x hx doc hdoc
          rcases List.mem_cons.mp hx with hx0 | hx'
          · subst hx0
            simp only [Option.some.injEq] at hdoc
            subst hdoc
            exact ⟨prov, hmem, rfl, hqual, hfree⟩
          · obtain ⟨q, hq1, hq2, hq3, hq4⟩ := h5 x hx' doc hdoc
            rw [hdo] at hq4
            exact ⟨q, hq1, hq2, hq3,
              findOneAssignment_append_none _ _ _ _ hq4⟩
      | none =>
        have hdo : doSlot provs nq site (dateStr a) st
            = ⟨st.assigns, st.created,
                st.conflicts ++ [conflictMsg (dateStr a)], p'⟩ := by
          unfold doSlot
          rw [htry]
        refine ⟨(a, none) :: os', ?_, ?_, ?_, ?_, ?_⟩
        · simp only [List.map_cons, h1, List.range'_succ]
        · rw [hrun, h2, hdo]
          simp [List.filterMap_cons]
        · rw [hrun, h3, hdo]
          simp [List.filter_cons]
        · rw [hrun, h4, hdo]
          simp [List.filterMap_cons]
        · intro x hx doc hdoc
          rcases List.mem_cons.mp hx with hx0 | hx'
          · subst hx0; simp at hdoc
          · obtain ⟨q, hq1, hq2, hq3, hq4⟩ := h5 x hx' doc hdoc
            rw [hdo] at hq4
            exact ⟨q, hq1, hq2, hq3, hq4⟩

theorem conflictMsg_inj (a b : String) (h : conflictMsg a = conflictMsg b) :
    a = b := by
  unfold conflictMsg at h
  have hd := congrArg String.data h
  rw [String.data_append, String.data_append] at hd
  have hd2 := List.append_cancel_left hd
  cases a; cases b
  exact congrArg String.mk (by simpa using hd2)

theorem fst_nodup_eq {α β : Type} (os : List (α × β))
    (h : (os.map Prod.fst).Nodup) :
    ∀ x ∈ os, ∀ y ∈ os, x.1 = y.1 → x = y := by
  induction os with
  | nil => simp
  | cons z os ih =>
    simp only [List.map_cons, List.nodup_cons] at h
    obtain ⟨hz, hnd⟩ := h
    intro x hx y hy hxy
    rcases List.mem_cons.mp hx with rfl | hx' <;>
      rcases List.mem_cons.mp hy with rfl | hy'
    · rfl
    · exact absurd (hxy ▸ List.mem_map_of_mem Prod.fst hy') hz
    · exact absurd (hxy.symm ▸ List.mem_map_of_mem Prod.fst hx') hz
    · exact ih hnd x hx' y hy' hxy

/-- Unfolding of a successful generation run in which at most one slot per
day is produced (`min(len(providers), len(shifts)) = 1`: in particular
whenever exactly one `REG` shift type exists): the run succeeds, leaves the
provider and shift-type collections untouched, and its outcomes are described
day by day as in `runDays_spec`. -/
theorem generate_spec (req : GenerateRequest) (store : Store)
    (s0 : ShiftType) (rest : List ShiftType)
    (hs : store.shiftTypes.filter (fun s => s.name == "REG") = s0 :: rest)
    (hp : store.providers ≠ [])
    (hmin : min store.providers.length (s0 :: rest).length = 1) :
    ∃ (os : List (Nat × Option AssignmentDoc)) (resp : GenerateResponse)
      (store' : Store),
      generate_schedule req store = (.ok resp, store') ∧
      store'.providers = store.providers ∧
      store'.shiftTypes = store.shiftTypes ∧
      os.map Prod.fst = List.range' req.start_date
        (((req.end_date : Int) - (req.start_date : Int) + 1).toNat) ∧
      store'.assignments = store.assignments ++ os.filterMap Prod.snd ∧
      resp.conflicts = (os.filter (fun x => x.2.isNone)).map
        (fun x => conflictMsg (dateStr x.1)) ∧
      resp.created = (os.filterMap Prod.snd).length ∧
      ∀ x ∈ os, ∀ doc, x.2 = some doc →
        ∃ prov, prov ∈ store.providers ∧
          doc = mkAssignment prov.id (dateStr x.1) s0.site ∧
          qualSkip s0.requires_qualification prov.qualifications = false ∧
          findOneAssignment store.assignments prov.id (dateStr x.1) = none := by
  obtain ⟨p0, ps, hps⟩ := List.exists_cons_of_ne_nil hp
  have hgen : generate_schedule req store
      = (.ok ⟨(runDays store.providers s0.requires_qualification s0.site 1
            (((req.end_date : Int) - (req.start_date : Int) + 1).toNat)
            req.start_date ⟨store.assignments, 0, [], 0⟩).created,
          (runDays store.providers s0.requires_qualification s0.site 1
            (((req.end_date : Int) - (req.start_date : Int) + 1).toNat)
            req.start_date ⟨store.assignments, 0, [], 0⟩).conflicts⟩,
        { store with assignments :=
            (runDays store.providers s0.requires_qualification s0.site 1
              (((req.end_date : Int) - (req.start_date : Int) + 1).toNat)
              req.start_date ⟨store.assignments, 0, [], 0⟩).assigns }) := by
    unfold generate_schedule
    rw [hs]
    rw [hps]
    dsimp only
    rw [← hps, hmin]
  obtain ⟨os, h1, h2, h3, h4, h5⟩ :=
    runDays_spec store.providers s0.requires_qualification s0.site
      (((req.end_date : Int) - (req.start_date : Int) + 1).toNat)
      req.start_date ⟨store.assignments, 0, [], 0⟩
  refine ⟨os, _, _, hgen, rfl, rfl, h1, h2, ?_, ?_, h5⟩
  · simpa using h3
  · simpa using h4

/-- Counting a day's conflict message: with pairwise-distinct day ordinals in
the valid date range, the conflict list contains the message for day `d`
exactly once if day `d` failed, and not at all otherwise. -/
theorem count_msg (os : List (Nat × Option AssignmentDoc)) (d : Nat) :
    (os.map Prod.fst).Nodup →
    (∀ x ∈ os, 1 ≤ x.1 ∧ x.1 ≤ maxOrdinal) →
    1 ≤ d → d ≤ maxOrdinal →
    ((os.filter (fun x => x.2.isNone)).map
        (fun x => conflictMsg (dateStr x.1))).count (conflictMsg (dateStr d))
      = if (d, (none : Option AssignmentDoc)) ∈ os then 1 else 0 := by
  induction os with
  | nil => simp
  | cons x os ih =>
    intro hnd hb hd1 hd2
    simp only [List.map_cons, List.nodup_cons] at hnd
    obtain ⟨hx1, hnd'⟩ := hnd
    have hbx := hb x (List.mem_cons_self _ _)
    have ih' := ih hnd' (fun y hy => hb y (List.mem_cons_of_mem _ hy)) hd1 hd2
    cases hsnd : x.2 with
    | some doc =>
      rw [List.filter_cons_of_neg (by simp [hsnd])]
      rw [ih']
      have hiff : ((d, (none : Option AssignmentDoc)) ∈ x :: os) ↔
          ((d, (none : Option AssignmentDoc)) ∈ os) := by
        constructor
        · intro h
          rcases List.mem_cons.mp h with h | h
          · rw [← h] at hsnd; simp at hsnd
          · exact h
        · exact List.mem_cons_of_mem _
      simp only [hiff]
    | none =>
      rw [List.filter_cons_of_pos (by simp [hsnd])]
      simp only [List.map_cons, List.count_cons]
      rw [ih']
      by_cases hxd : x.1 = d
      · have hdn : (d, (none : Option AssignmentDoc)) ∉ os := by
          intro hmem
          exact hx1 (hxd ▸ List.mem_map_of_mem Prod.fst hmem)
        have hxeq : x = (d, (none : Option AssignmentDoc)) := by
          cases x
          simp_all
        subst hxeq
        simp [hdn]
      · have hne : conflictMsg (dateStr x.1) ≠ conflictMsg (dateStr d) :=
          fun hcon => hxd (dateStr_inj _ _ hbx.1 hbx.2 hd1 hd2
            (conflictMsg_inj _ _ hcon))
        have hxmem : ((d, (none : Option AssignmentDoc)) ∈ x :: os) ↔
            ((d, (none : Option AssignmentDoc)) ∈ os) := by
          constructor
          · intro h
            rcases List.mem_cons.mp h with h | h
            · exact absurd (congrArg Prod.fst h.symm) hxd
            · exact h
          · exact List.mem_cons_of_mem _
        simp only [hxmem]
        have : (conflictMsg (dateStr x.1) == conflictMsg (dateStr d)) = false :=
          beq_eq_false_iff_ne.mpr hne
        rw [this]
        simp

/-! ## Demo fixtures (used by witnesses and counterexamples) -/

/-- A registered provider with the given identifier and qualifications. -/
def demoProvider (i : String) (qs : List String) : Provider :=
  { id := i, name := i, fte := 1.0, acc_target := 0, call_target := 0,
    qualifications := qs }

/-- A `REG` shift type at site `"S"` with the given required qualification. -/
def demoShift (q : Option String) : ShiftType :=
  { id := "s1", name := "REG", site := "S", requires_qualification := q }

/-! ## Claims -/

/-- Structural case split on a generation run: either the store comes back
unchanged (the configuration-error path), or the assignment collection is the
output of the date loop started on the current assignment collection. -/
theorem generate_store_cases (req : GenerateRequest) (store : Store) :
    (generate_schedule req store).2.assignments = store.assignments ∨
    ∃ provs nq site slots k a,
      (generate_schedule req store).2.assignments
        = (runDays provs nq site slots k a
            ⟨store.assignments, 0, [], 0⟩).assigns := by
  unfold generate_schedule
  rcases hp : store.providers with _ | ⟨p0, ps⟩
  · left; rfl
  · rcases hq : store.shiftTypes.filter (fun s => s.name == "REG")
      with _ | ⟨s0, rest⟩
    · rw [hq]; left; rfl
    · rw [hq]
      right
      exact ⟨_, _, _, _, _, _, rfl⟩

/-- C1: before persisting, the allocator checks that no assignment with the
candidate's identifier and the day's date already exists (and skips the
candidate if one does); consequently a store in which no two assignment
records share a provider identifier and date still satisfies that invariant
after any generation run. -/
theorem generate_no_double_booking :
    (∀ (provs : List Provider) (nq : Option String) (ds : String)
        (assigns : List AssignmentDoc) (fuel p : Nat) (prov : Provider)
        (p' : Nat),
      trySlot provs nq ds assigns fuel p = (some prov, p') →
        findOneAssignment assigns prov.id ds = none) ∧
    (∀ (req : GenerateRequest) (store : Store), NoDupKeys store.assignments →
      NoDupKeys ((generate_schedule req store).2.assignments)) := by
  constructor
  · intro provs nq ds assigns fuel p prov p' h
    exact (trySlot_some provs nq ds assigns fuel p prov p' h).2.1
  · intro req store h
    rcases generate_store_cases req store with hc | ⟨provs, nq, site, slots, k, a, hc⟩
    · rw [hc]; exact h
    · rw [hc]
      exact runDays_noDup provs nq site slots k a
        ⟨store.assignments, 0, [], 0⟩ h

theorem generate_no_double_booking_witness :
    NoDupKeys ((generate_schedule ⟨1, 2⟩
      ⟨[demoProvider "A" []], [demoShift none], []⟩).2.assignments) :=
  generate_no_double_booking.2 ⟨1, 2⟩
    ⟨[demoProvider "A" []], [demoShift none], []⟩ List.Pairwise.nil

/-- C4: with no provider or no `REG`-named shift type, generation fails with
the configuration error before any work: the store is returned unchanged (no
assignment is created) and no response — hence no conflict list — is
produced. -/
theorem generate_config_error (req : GenerateRequest) (store : Store)
    (h : store.providers = [] ∨
      store.shiftTypes.filter (fun s => s.name == "REG") = []) :
    generate_schedule req store
      = (.error ⟨400, "Providers and REG Shift Type required"⟩, store) := by
  unfold generate_schedule
  rcases h with h | h
  · rw [h]
  · rw [h]
    rcases store.providers with _ | ⟨p0, ps⟩
    · rfl
    · rfl

theorem generate_config_error_witness :
    generate_schedule ⟨1, 5⟩ ⟨[], [demoShift none], []⟩
      = (.error ⟨400, "Providers and REG Shift Type required"⟩,
          ⟨[], [demoShift none], []⟩) :=
  generate_config_error ⟨1, 5⟩ ⟨[], [demoShift none], []⟩ (Or.inl rfl)

/-- C10: a reversed range (`end_date < start_date`) makes the computed day
count non-positive, so the day loop never runs: the run succeeds with
`created = 0`, no conflicts, and an unchanged store. -/
theorem generate_reversed_range (req : GenerateRequest) (store : Store)
    (hp : store.providers ≠ [])
    (hs : store.shiftTypes.filter (fun s => s.name == "REG") ≠ [])
    (hrev : req.end_date < req.start_date) :
    generate_schedule req store = (.ok ⟨0, []⟩, store) := by
  obtain ⟨s0, rest, hsr⟩ := List.exists_cons_of_ne_nil hs
  obtain ⟨p0, ps, hpr⟩ := List.exists_cons_of_ne_nil hp
  unfold generate_schedule
  rw [hsr, hpr]
  dsimp only
  have hdays : ((req.end_date : Int) - (req.start_date : Int) + 1).toNat = 0 := by
    omega
  rw [hdays, ← hpr]
  rfl

theorem generate_reversed_range_witness :
    generate_schedule ⟨5, 3⟩
        ⟨[demoProvider "A" []], [demoShift none], []⟩
      = (.ok ⟨0, []⟩, ⟨[demoProvider "A" []], [demoShift none], []⟩) :=
  generate_reversed_range ⟨5, 3⟩ _ (by simp) (by simp [demoShift]) (by decide)

/-- C3: with exactly one `REG` shift type and a non-reversed range, a
successful run satisfies `created + len(conflicts) = ` number of days in the
inclusive range. -/
theorem created_plus_conflicts (req : GenerateRequest) (store : Store)
    (s0 : ShiftType)
    (hs : store.shiftTypes.filter (fun s => s.name == "REG") = [s0])
    (hp : store.providers ≠ [])
    (hle : req.start_date ≤ req.end_date)
    (resp : GenerateResponse) (store' : Store)
    (hrun : generate_schedule req store = (.ok resp, store')) :
    resp.created + resp.conflicts.length
      = req.end_date - req.start_date + 1 := by
  have hmin : min store.providers.length ([s0] : List ShiftType).length = 1 := by
    have : 0 < store.providers.length := List.length_pos.mpr hp
    simp only [List.length_singleton]
    omega
  obtain ⟨os, resp', store'', hgen, _, _, h1, _, hconf, hcreated, _⟩ :=
    generate_spec req store s0 [] hs hp hmin
  rw [hrun] at hgen
  simp only [Prod.mk.injEq, Except.ok.injEq] at hgen
  obtain ⟨rfl, rfl⟩ := hgen
  rw [hconf, hcreated, List.length_map]
  have hlen : os.length
      = (((req.end_date : Int) - (req.start_date : Int) + 1)).toNat := by
    have := congrArg List.length h1
    simpa using this
  have := outcome_count os
  omega

theorem created_plus_conflicts_witness :
    (2 : Nat) + ([] : List String).length = 2 - 1 + 1 :=
  created_plus_conflicts ⟨1, 2⟩ ⟨[demoProvider "A" []], [demoShift none], []⟩
    (demoShift none) (by rfl) (by simp) (by decide) ⟨2, []⟩
    ⟨[demoProvider "A" []], [demoShift none],
      [mkAssignment "A" (dateStr 1) "S", mkAssignment "A" (dateStr 2) "S"]⟩
    (by rfl)

/-- Inversion of a successful run: a run that returns `.ok` selected the
first `REG`-named shift type (in store order), had at least one provider, and
produced exactly the date-loop outcome. -/
theorem generate_ok_shape (req : GenerateRequest) (store : Store)
    (resp : GenerateResponse) (store' : Store)
    (hrun : generate_schedule req store = (.ok resp, store')) :
    ∃ s0 rest, store.shiftTypes.filter (fun s => s.name == "REG") = s0 :: rest ∧
      store.providers ≠ [] ∧
      store'.providers = store.providers ∧
      store'.shiftTypes = store.shiftTypes ∧
      store'.assignments
        = (runDays store.providers s0.requires_qualification s0.site
            (min store.providers.length (s0 :: rest).length)
            (((req.end_date : Int) - (req.start_date : Int) + 1).toNat)
            req.start_date ⟨store.assignments, 0, [], 0⟩).assigns ∧
      resp.created
        = (runDays store.providers s0.requires_qualification s0.site
            (min store.providers.length (s0 :: rest).length)
            (((req.end_date : Int) - (req.start_date : Int) + 1).toNat)
            req.start_date ⟨store.assignments, 0, [], 0⟩).created ∧
      resp.conflicts
        = (runDays store.providers s0.requires_qualification s0.site
            (min store.providers.length (s0 :: rest).length)
            (((req.end_date : Int) - (req.start_date : Int) + 1).toNat)
            req.start_date ⟨store.assignments, 0, [], 0⟩).conflicts := by
  unfold generate_schedule at hrun
  rcases hp : store.providers with _ | ⟨p0, ps⟩
  · rw [hp] at hrun
    simp at hrun
  · rcases hq : store.shiftTypes.filter (fun s => s.name == "REG")
      with _ | ⟨s0, rest⟩
    · rw [hp, hq] at hrun
      simp at hrun
    · rw [hp, hq] at hrun
      dsimp only at hrun
      simp only [Prod.mk.injEq, Except.ok.injEq] at hrun
      obtain ⟨hresp, hstore⟩ := hrun
      subst hresp
      subst hstore
      exact ⟨s0, rest, hq, by simp [hp], rfl, rfl, rfl, rfl, rfl⟩

/-- The qualification gate is sound for every inserted record (any number of
slots per day): a record present after a slot was present before it or
references a listed provider that passed the gate. -/
theorem doSlot_qual (provs : List Provider) (nq : Option String)
    (site ds : String) (st : RunState) :
    ∀ doc ∈ (doSlot provs nq site ds st).assigns,
      doc ∈ st.assigns ∨ ∃ prov, prov ∈ provs ∧ doc.provider_id = prov.id ∧
        qualSkip nq prov.qualifications = false := by
  intro doc hdoc
  unfold doSlot at hdoc
  cases htry : trySlot provs nq ds st.assigns provs.length st.p with
  | mk res p' =>
    rw [htry] at hdoc
    cases res with
    | none => exact Or.inl hdoc
    | some prov =>
      dsimp only at hdoc
      rcases List.mem_append.mp hdoc with h | h
      · exact Or.inl h
      · obtain ⟨hmem, _, hqual⟩ :=
          trySlot_some provs nq ds st.assigns _ _ _ _ htry
        simp only [List.mem_singleton] at h
        subst h
        exact Or.inr ⟨prov, hmem, rfl, hqual⟩

theorem doSlots_qual (provs : List Provider) (nq : Option String)
    (site ds : String) :
    ∀ (k : Nat) (st : RunState),
      ∀ doc ∈ (doSlots provs nq site ds k st).assigns,
        doc ∈ st.assigns ∨ ∃ prov, prov ∈ provs ∧ doc.provider_id = prov.id ∧
          qualSkip nq prov.qualifications = false := by
  intro k
  induction k with
  | zero => intro st doc hdoc; exact Or.inl hdoc
  | succ k ih =>
    intro st doc hdoc
    rcases ih _ doc hdoc with h | h
    · exact doSlot_qual provs nq site ds st doc h
    · exact Or.inr h

theorem runDays_qual (provs : List Provider) (nq : Option String)
    (site : String) (slots : Nat) :
    ∀ (k a : Nat) (st : RunState),
      ∀ doc ∈ (runDays provs nq site slots k a st).assigns,
        doc ∈ st.assigns ∨ ∃ prov, prov ∈ provs ∧ doc.provider_id = prov.id ∧
          qualSkip nq prov.qualifications = false := by
  intro k
  induction k with
  | zero => intro a st doc hdoc; exact Or.inl hdoc
  | succ k ih =>
    intro a st doc hdoc
    rcases ih _ _ doc hdoc with h | h
    · exact doSlots_qual provs nq site (dateStr a) slots st doc h
    · exact Or.inr h

theorem qualSkip_false_mem (q : String) (hq : q ≠ "") (quals : List String)
    (h : qualSkip (some q) quals = false) : q ∈ quals := by
  unfold qualSkip at h
  simp only [Bool.and_eq_false_iff, bne_eq_false_iff_eq, Bool.not_eq_false] at h
  rcases h with h | h
  · exact absurd h hq
  · exact List.mem_of_elem_eq_true (by simpa using h)

/-- C5 (amended): when the selected `REG` shift type carries a *non-empty*
required qualification, every assignment persisted by the run references a
provider whose qualification set contains it; when no qualification is set
the gate passes every provider. (The empty string counts as unset because of
Python truthiness — see the counterexample.) -/
theorem generate_qualification (req : GenerateRequest) (store : Store)
    (s0 : ShiftType) (rest : List ShiftType) (q : String)
    (hs : store.shiftTypes.filter (fun s => s.name == "REG") = s0 :: rest)
    (hq : s0.requires_qualification = some q) (hq' : q ≠ "")
    (resp : GenerateResponse) (store' : Store)
    (hrun : generate_schedule req store = (.ok resp, store')) :
    (∀ doc ∈ store'.assignments, doc ∈ store.assignments ∨
      ∃ prov, prov ∈ store.providers ∧ doc.provider_id = prov.id ∧
        q ∈ prov.qualifications) ∧
    (∀ quals : List String, qualSkip none quals = false) := by
  obtain ⟨s0', rest', hs', _, _, _, hassign, _, _⟩ :=
    generate_ok_shape req store resp store' hrun
  rw [hs] at hs'
  obtain ⟨rfl, rfl⟩ : s0 = s0' ∧ rest = rest' := by
    injection hs' with h1 h2
    exact ⟨h1, h2⟩
  refine ⟨?_, fun quals => rfl⟩
  intro doc hdoc
  rw [hassign] at hdoc
  rcases runDays_qual store.providers s0.requires_qualification s0.site
    _ _ _ _ doc hdoc with h | ⟨prov, hmem, hid, hqual⟩
  · exact Or.inl h
  · rw [hq] at hqual
    exact Or.inr ⟨prov, hmem, hid, qualSkip_false_mem q hq' _ hqual⟩

theorem generate_qualification_witness :
    (∀ doc ∈ [mkAssignment "A" (dateStr 1) "S", mkAssignment "A" (dateStr 2) "S"],
      doc ∈ ([] : List AssignmentDoc) ∨
      ∃ prov, prov ∈ [demoProvider "A" ["X"], demoProvider "B" []] ∧
        doc.provider_id = prov.id ∧ "X" ∈ prov.qualifications) ∧
    (∀ quals : List String, qualSkip none quals = false) :=
  generate_qualification ⟨1, 2⟩
    ⟨[demoProvider "A" ["X"], demoProvider "B" []], [demoShift (some "X")], []⟩
    (demoShift (some "X")) [] "X" (by rfl) (by rfl) (by decide) ⟨2, []⟩
    ⟨[demoProvider "A" ["X"], demoProvider "B" []], [demoShift (some "X")],
      [mkAssignment "A" (dateStr 1) "S", mkAssignment "A" (dateStr 2) "S"]⟩
    (by rfl)

/-- C5 counterexample: the spec's claim fails for the empty-string
qualification. With `requires_qualification = ""` (set, but Python-falsy) the
gate is skipped: provider `A`, whose qualification set does not contain `""`,
still receives the assignment. -/
theorem generate_qualification_counterexample :
    (demoShift (some "")).requires_qualification = some "" ∧
    (generate_schedule ⟨1, 1⟩
        ⟨[demoProvider "A" []], [demoShift (some "")], []⟩).2.assignments
      = [mkAssignment "A" (dateStr 1) "S"] ∧
    (mkAssignment "A" (dateStr 1) "S").provider_id = (demoProvider "A" []).id ∧
    "" ∉ (demoProvider "A" []).qualifications := by
  refine ⟨rfl, by rfl, rfl, by simp [demoProvider]⟩

/-- C9: the provider and shift-type creation endpoints reject a request whose
identifier already exists (duplicate-identifier error, no write) and
otherwise persist the submitted record verbatim. (These are the only creation
endpoints the API defines; assignments are inserted by the allocator, not
through a creation endpoint.) -/
theorem creation_endpoints_duplicate_check :
    (∀ (prov : Provider) (store : Store),
      ((∃ p ∈ store.providers, p.id = prov.id) →
        create_provider prov store
          = (.error ⟨400, "Provider already exists"⟩, store)) ∧
      ((¬ ∃ p ∈ store.providers, p.id = prov.id) →
        create_provider prov store
          = (.ok prov, { store with providers := store.providers ++ [prov] }))) ∧
    (∀ (shift : ShiftType) (store : Store),
      ((∃ s ∈ store.shiftTypes, s.id = shift.id) →
        create_shift_type shift store
          = (.error ⟨400, "ShiftType already exists"⟩, store)) ∧
      ((¬ ∃ s ∈ store.shiftTypes, s.id = shift.id) →
        create_shift_type shift store
          = (.ok shift,
              { store with shiftTypes := store.shiftTypes ++ [shift] }))) := by
  constructor
  · intro prov store
    unfold create_provider
    cases hf : store.providers.find? (fun p => p.id == prov.id) with
    | none =>
      rw [List.find?_eq_none] at hf
      refine ⟨fun ⟨p, hp, hid⟩ => absurd (by simp [hid]) (hf p hp), fun _ => rfl⟩
    | some p =>
      refine ⟨fun _ => rfl, fun hne => ?_⟩
      exact absurd ⟨p, List.mem_of_find?_eq_some hf,
        by simpa using List.find?_some hf⟩ hne
  · intro shift store
    unfold create_shift_type
    cases hf : store.shiftTypes.find? (fun s => s.id == shift.id) with
    | none =>
      rw [List.find?_eq_none] at hf
      refine ⟨fun ⟨s, hsm, hid⟩ => absurd (by simp [hid]) (hf s hsm), fun _ => rfl⟩
    | some s =>
      refine ⟨fun _ => rfl, fun hne => ?_⟩
      exact absurd ⟨s, List.mem_of_find?_eq_some hf,
        by simpa using List.find?_some hf⟩ hne

theorem creation_endpoints_duplicate_check_witness :
    create_provider (demoProvider "A" ["X"])
        ⟨[demoProvider "A" []], [], []⟩
      = (.error ⟨400, "Provider already exists"⟩,
          ⟨[demoProvider "A" []], [], []⟩) ∧
    create_shift_type (demoShift none) ⟨[], [], []⟩
      = (.ok (demoShift none), ⟨[], [demoShift none], []⟩) :=
  ⟨(creation_endpoints_duplicate_check.1 (demoProvider "A" ["X"])
      ⟨[demoProvider "A" []], [], []⟩).1
      ⟨demoProvider "A" [], by simp, rfl⟩,
    (creation_endpoints_duplicate_check.2 (demoShift none) ⟨[], [], []⟩).2
      (by simp)⟩

/-- C2: with exactly one `REG` shift type and at least one provider, every
day of the (valid-date) range either received one machine-generated `REG`
assignment at the selected shift's site, or its conflict message appears
exactly once in the returned conflicts — never both. -/
theorem generate_day_dichotomy (req : GenerateRequest) (store : Store)
    (s0 : ShiftType)
    (hs : store.shiftTypes.filter (fun s => s.name == "REG") = [s0])
    (hp : store.providers ≠ [])
    (hb1 : 1 ≤ req.start_date) (hb2 : req.end_date ≤ maxOrdinal)
    (resp : GenerateResponse) (store' : Store)
    (hrun : generate_schedule req store = (.ok resp, store'))
    (d : Nat) (hd1 : req.start_date ≤ d) (hd2 : d ≤ req.end_date) :
    Xor'
      (∃ doc ∈ store'.assignments.drop store.assignments.length,
        doc.date = dateStr d ∧ doc.shift_type = "REG" ∧ doc.site = s0.site ∧
          doc.generated_by = "AI")
      (resp.conflicts.count (conflictMsg (dateStr d)) = 1) := by
  have hmin : min store.providers.length ([s0] : List ShiftType).length = 1 := by
    have : 0 < store.providers.length := List.length_pos.mpr hp
    simp only [List.length_singleton]
    omega
  obtain ⟨os, resp', store'', hgen, _, _, h1, hassign, hconf, _, h5⟩ :=
    generate_spec req store s0 [] hs hp hmin
  rw [hrun] at hgen
  simp only [Prod.mk.injEq, Except.ok.injEq] at hgen
  obtain ⟨rfl, rfl⟩ := hgen
  have hdrop : store'.assignments.drop store.assignments.length
      = os.filterMap Prod.snd := by
    rw [hassign, List.drop_left]
  have hnodup : (os.map Prod.fst).Nodup := by
    rw [h1]
    exact (List.pairwise_lt_range' _ _).imp Nat.ne_of_lt
  have hdays : req.start_date
      + (((req.end_date : Int) - (req.start_date : Int) + 1)).toNat
      = req.end_date + 1 := by omega
  have hbounds : ∀ y ∈ os, 1 ≤ y.1 ∧ y.1 ≤ maxOrdinal := by
    intro y hy
    have : y.1 ∈ os.map Prod.fst := List.mem_map_of_mem Prod.fst hy
    rw [h1] at this
    have := List.mem_range'_1.mp this
    omega
  have hcount := count_msg os d hnodup hbounds (by omega) (by omega)
  have hdmem : d ∈ os.map Prod.fst := by
    rw [h1, List.mem_range'_1]
    omega
  obtain ⟨x, hx, hxd⟩ := List.mem_map.mp hdmem
  cases hx2 : x.2 with
  | none =>
    refine Or.inr ⟨?_, ?_⟩
    · rw [hconf, hcount, if_pos ?_]
      have : x = (d, (none : Option AssignmentDoc)) := by
        cases x; simp_all
      exact this ▸ hx
    · rintro ⟨doc, hdmem', hdate, _, _, _⟩
      rw [hdrop] at hdmem'
      obtain ⟨y, hy, hysnd⟩ := List.mem_filterMap.mp hdmem'
      obtain ⟨prov, _, hdoc, _, _⟩ := h5 y hy doc hysnd
      have hdate' : dateStr y.1 = dateStr d := by
        rw [hdoc] at hdate
        exact hdate
      have hyb := hbounds y hy
      have : y.1 = d := dateStr_inj _ _ hyb.1 hyb.2 (by omega) (by omega) hdate'
      have hyx : y = x := fst_nodup_eq os hnodup y hy x hx (by omega)
      rw [hyx, hx2] at hysnd
      exact Option.noConfusion hysnd
  | some doc =>
    refine Or.inl ⟨⟨doc, ?_, ?_⟩, ?_⟩
    · rw [hdrop]
      exact List.mem_filterMap.mpr ⟨x, hx, hx2⟩
    · obtain ⟨prov, _, hdoc, _, _⟩ := h5 x hx doc hx2
      rw [hdoc, hxd]
      exact ⟨rfl, rfl, rfl, rfl⟩
    · rw [hconf, hcount]
      intro hone
      split_ifs at hone with hmem
      have : (d, (none : Option AssignmentDoc)) = x :=
        fst_nodup_eq os hnodup _ hmem x hx hxd.symm
      rw [← this] at hx2
      exact Option.noConfusion hx2

theorem generate_day_dichotomy_witness :
    Xor'
      (∃ doc ∈ (⟨[demoProvider "A" []], [demoShift none],
          [mkAssignment "A" (dateStr 1) "S"]⟩ : Store).assignments.drop
            ([] : List AssignmentDoc).length,
        doc.date = dateStr 1 ∧ doc.shift_type = "REG" ∧
          doc.site = (demoShift none).site ∧ doc.generated_by = "AI")
      (([] : List String).count (conflictMsg (dateStr 1)) = 1) :=
  generate_day_dichotomy ⟨1, 1⟩
    ⟨[demoProvider "A" []], [demoShift none], []⟩ (demoShift none)
    (by rfl) (by simp) (by decide) (by decide) ⟨1, []⟩
    ⟨[demoProvider "A" []], [demoShift none], [mkAssignment "A" (dateStr 1) "S"]⟩
    (by rfl) 1 (by decide) (by decide)

/-- C7 (amended): with a single `REG` shift type, the conflicts list is a
map of the message `"No eligible provider for <date>"` (capital `N`) over a
strictly increasing list of days of the requested range — one entry per
unstaffable day, in processing order. -/
theorem conflicts_form_and_order (req : GenerateRequest) (store : Store)
    (s0 : ShiftType)
    (hs : store.shiftTypes.filter (fun s => s.name == "REG") = [s0])
    (hp : store.providers ≠ [])
    (resp : GenerateResponse) (store' : Store)
    (hrun : generate_schedule req store = (.ok resp, store')) :
    ∃ ds : List Nat,
      resp.conflicts = ds.map (fun d => conflictMsg (dateStr d)) ∧
      ds.Pairwise (· < ·) ∧
      ∀ d ∈ ds, req.start_date ≤ d ∧ d ≤ req.end_date := by
  have hmin : min store.providers.length ([s0] : List ShiftType).length = 1 := by
    have : 0 < store.providers.length := List.length_pos.mpr hp
    simp only [List.length_singleton]
    omega
  obtain ⟨os, resp', store'', hgen, _, _, h1, _, hconf, _, _⟩ :=
    generate_spec req store s0 [] hs hp hmin
  rw [hrun] at hgen
  simp only [Prod.mk.injEq, Except.ok.injEq] at hgen
  obtain ⟨rfl, rfl⟩ := hgen
  refine ⟨(os.filter (fun x => x.2.isNone)).map Prod.fst, ?_, ?_, ?_⟩
  · rw [hconf, List.map_map]
    rfl
  · have hsub : ((os.filter (fun x => x.2.isNone)).map Prod.fst).Sublist
        (os.map Prod.fst) :=
      List.Sublist.map Prod.fst (List.filter_sublist os)
    rw [h1] at hsub
    exact List.Pairwise.sublist hsub (List.pairwise_lt_range' _ _)
  · intro d hd
    obtain ⟨x, hx, hxd⟩ := List.mem_map.mp hd
    have : x.1 ∈ os.map Prod.fst :=
      List.mem_map_of_mem Prod.fst (List.mem_of_mem_filter hx)
    rw [h1] at this
    have := List.mem_range'_1.mp this
    omega

/-- C7 counterexample: the code's conflict strings start with a capital
`"No"`, so no entry has the exact form `"no eligible provider for <date>"`;
moreover with two `REG` shift types a single unstaffable day produces two
conflict entries, not one. -/
theorem conflicts_form_counterexample :
    ((generate_schedule ⟨1, 1⟩
        ⟨[demoProvider "A" []], [demoShift (some "X")], []⟩).1
      = .ok ⟨0, ["No eligible provider for 0001-01-01"]⟩ ∧
      ∀ s : String,
        "No eligible provider for 0001-01-01" ≠ "no eligible provider for " ++ s) ∧
    (generate_schedule ⟨1, 1⟩
        ⟨[demoProvider "A" [], demoProvider "B" []],
          [demoShift (some "X"),
            { id := "s2", name := "REG", site := "T",
              requires_qualification := some "X" }], []⟩).1
      = .ok ⟨0, ["No eligible provider for 0001-01-01",
          "No eligible provider for 0001-01-01"]⟩ := by
  refine ⟨⟨by rfl, ?_⟩, by rfl⟩
  intro s hcon
  have hd := congrArg String.data hcon
  rw [String.data_append] at hd
  have hpre : ("no eligible provider for " : String).data
      = 'n' :: ("o eligible provider for " : String).data := rfl
  rw [hpre] at hd
  have hN : ("No eligible provider for 0001-01-01" : String).data
      = 'N' :: ("o eligible provider for 0001-01-01" : String).data := rfl
  rw [hN] at hd
  injection hd with h1 _
  exact absurd h1 (by decide)

/-- C8 (amended): generation is not idempotent for single-provider stores:
running it twice over the same range with no intervening change, the second
run reports a conflict for every day the first run filled. (With two or more
providers the second run can staff a filled day with a different provider —
see the counterexample.) -/
theorem second_run_conflicts (req : GenerateRequest) (store : Store)
    (prov : Provider) (hp : store.providers = [prov])
    (r1 r2 : GenerateResponse) (store1 store2 : Store)
    (hrun1 : generate_schedule req store = (.ok r1, store1))
    (hrun2 : generate_schedule req store1 = (.ok r2, store2)) :
    ∀ doc ∈ store1.assignments.drop store.assignments.length,
      conflictMsg doc.date ∈ r2.conflicts := by
  intro doc hdoc
  obtain ⟨s0, rest, hs, _, hprov1, hshift1, _, _, _⟩ :=
    generate_ok_shape req store r1 store1 hrun1
  have hmin : min store.providers.length (s0 :: rest).length = 1 := by
    rw [hp]
    simp only [List.length_singleton, List.length_cons, List.length_nil]
    omega
  obtain ⟨os1, r1', store1', hgen1, _, _, hmap1, hassign1, _, _, h51⟩ :=
    generate_spec req store s0 rest hs (by rw [hp]; simp) hmin
  rw [hrun1] at hgen1
  simp only [Prod.mk.injEq, Except.ok.injEq] at hgen1
  obtain ⟨rfl, rfl⟩ := hgen1
  -- the filled day of `doc`
  rw [hassign1, List.drop_left] at hdoc
  obtain ⟨y, hy, hysnd⟩ := List.mem_filterMap.mp hdoc
  obtain ⟨p1, hp1, hdoc1, _, _⟩ := h51 y hy doc hysnd
  rw [hp] at hp1
  simp only [List.mem_singleton] at hp1
  subst hp1
  -- second run
  have hs2 : store1.shiftTypes.filter (fun s => s.name == "REG") = s0 :: rest := by
    rw [hshift1, hs]
  have hmin2 : min store1.providers.length (s0 :: rest).length = 1 := by
    rw [hprov1, hp]
    simp only [List.length_singleton, List.length_cons, List.length_nil]
    omega
  obtain ⟨os2, r2', store2', hgen2, _, _, hmap2, _, hconf2, _, h52⟩ :=
    generate_spec req store1 s0 rest hs2 (by rw [hprov1, hp]; simp) hmin2
  rw [hrun2] at hgen2
  simp only [Prod.mk.injEq, Except.ok.injEq] at hgen2
  obtain ⟨rfl, rfl⟩ := hgen2
  -- find day `y.1` in the second run's outcomes
  have hymem : y.1 ∈ os2.map Prod.fst := by
    rw [hmap2, ← hmap1]
    exact List.mem_map_of_mem Prod.fst hy
  obtain ⟨x2, hx2, hx2d⟩ := List.mem_map.mp hymem
  cases hx2snd : x2.2 with
  | some doc2 =>
    exfalso
    obtain ⟨p2, hp2, _, _, hfree2⟩ := h52 x2 hx2 doc2 hx2snd
    rw [hprov1, hp] at hp2
    simp only [List.mem_singleton] at hp2
    subst hp2
    -- but `doc` is already in `store1.assignments` with that key
    have hdocmem : doc ∈ store1.assignments := by
      rw [hassign1]
      exact List.mem_append_right _ hdoc
    unfold findOneAssignment at hfree2
    rw [List.find?_eq_none] at hfree2
    have := hfree2 doc hdocmem
    rw [hdoc1, hx2d] at this
    simp [mkAssignment] at this
  | none =>
    rw [hconf2]
    have hxmem : x2 ∈ os2.filter (fun x => x.2.isNone) :=
      List.mem_filter.mpr ⟨hx2, by rw [hx2snd]; rfl⟩
    have : conflictMsg (dateStr x2.1)
        ∈ (os2.filter (fun x => x.2.isNone)).map
            (fun x => conflictMsg (dateStr x.1)) :=
      List.mem_map_of_mem _ hxmem
    rw [hx2d] at this
    rw [hdoc1]
    exact this

theorem second_run_conflicts_witness :
    conflictMsg (mkAssignment "A" (dateStr 1) "S").date
      ∈ ["No eligible provider for 0001-01-01"] := by
  have h := second_run_conflicts ⟨1, 1⟩
    ⟨[demoProvider "A" []], [demoShift none], []⟩ (demoProvider "A" [])
    (by rfl) ⟨1, []⟩ ⟨0, ["No eligible provider for 0001-01-01"]⟩
    ⟨[demoProvider "A" []], [demoShift none], [mkAssignment "A" (dateStr 1) "S"]⟩
    ⟨[demoProvider "A" []], [demoShift none], [mkAssignment "A" (dateStr 1) "S"]⟩
    (by rfl) (by rfl)
  exact h (mkAssignment "A" (dateStr 1) "S") (by simp)

/-- C8 counterexample: with two providers and one day, the first run fills
the day (with `A`), yet the second run reports no conflict at all — it staffs
the same day with `B` instead. -/
theorem idempotence_counterexample :
    (generate_schedule ⟨1, 1⟩
        ⟨[demoProvider "A" [], demoProvider "B" []], [demoShift none], []⟩).1
      = .ok ⟨1, []⟩ ∧
    (generate_schedule ⟨1, 1⟩
        ⟨[demoProvider "A" [], demoProvider "B" []],
          [demoShift none], []⟩).2.assignments
      = [mkAssignment "A" (dateStr 1) "S"] ∧
    (generate_schedule ⟨1, 1⟩
        ((generate_schedule ⟨1, 1⟩
          ⟨[demoProvider "A" [], demoProvider "B" []],
            [demoShift none], []⟩).2)).1
      = .ok ⟨1, []⟩ := by
  exact ⟨rfl, rfl, rfl⟩

theorem conflicts_form_and_order_witness :
    ∃ ds : List Nat,
      ["No eligible provider for 0001-01-01"]
        = ds.map (fun d => conflictMsg (dateStr d)) ∧
      ds.Pairwise (· < ·) ∧
      ∀ d ∈ ds, 1 ≤ d ∧ d ≤ 1 :=
  conflicts_form_and_order ⟨1, 1⟩
    ⟨[demoProvider "A" []], [demoShift (some "X")], []⟩ (demoShift (some "X"))
    (by rfl) (by simp) ⟨0, ["No eligible provider for 0001-01-01"]⟩
    ⟨[demoProvider "A" []], [demoShift (some "X")], []⟩ (by rfl)

/-! ## The rotation cursor (C6) -/

/-- The Eligibility Filter (§4.1), as the code implements it inline: not
already booked on the date, and not skipped by the qualification gate. -/
def isEligible (assigns : List AssignmentDoc) (nq : Option String)
    (ds : String) (prov : Provider) : Prop :=
  findOneAssignment assigns prov.id ds = none ∧
    qualSkip nq prov.qualifications = false

/-- Full characterization of the candidate loop: starting from cursor `p`
with a budget of `fuel` tries, the loop draws `providers[p mod n]`,
`providers[(p+1) mod n]`, … (advancing the cursor once per draw), stops at
the first eligible candidate, and otherwise stops with the cursor advanced by
exactly `fuel`. -/
theorem trySlot_char (provs : List Provider) (nq : Option String)
    (ds : String) (assigns : List AssignmentDoc) (hp : provs ≠ []) :
    ∀ fuel p,
      (∀ prov p', trySlot provs nq ds assigns fuel p = (some prov, p') →
        ∃ j, j < fuel ∧ p' = p + j + 1 ∧
          provs[(p + j) % provs.length]? = some prov ∧
          isEligible assigns nq ds prov ∧
          (∀ i < j, ∀ cand, provs[(p + i) % provs.length]? = some cand →
            ¬ isEligible assigns nq ds cand)) ∧
      (∀ p', trySlot provs nq ds assigns fuel p = (none, p') →
        p' = p + fuel ∧
        ∀ i < fuel, ∀ cand, provs[(p + i) % provs.length]? = some cand →
          ¬ isEligible assigns nq ds cand) := by
  have hlen : 0 < provs.length := List.length_pos.mpr hp
  intro fuel
  induction fuel with
  | zero =>
    intro p
    constructor
    · intro prov p' h
      simp [trySlot] at h
    · intro p' h
      simp only [trySlot, Prod.mk.injEq] at h
      exact ⟨by omega, fun i hi => absurd hi (by omega)⟩
  | succ fuel ih =>
    intro p
    have hmod : p % provs.length < provs.length := Nat.mod_lt _ hlen
    have hg : provs[p % provs.length]?
        = some (provs.get ⟨p % provs.length, hmod⟩) := by
      rw [List.getElem?_eq_getElem hmod]
      rfl
    have hstep : trySlot provs nq ds assigns (fuel + 1) p
        = if (findOneAssignment assigns
              (provs.get ⟨p % provs.length, hmod⟩).id ds).isSome then
            trySlot provs nq ds assigns fuel (p + 1)
          else if qualSkip nq (provs.get ⟨p % provs.length, hmod⟩).qualifications
              then
            trySlot provs nq ds assigns fuel (p + 1)
          else
            (some (provs.get ⟨p % provs.length, hmod⟩), p + 1) := by
      conv_lhs => rw [trySlot]
      rw [hg]
    set cand := provs.get ⟨p % provs.length, hmod⟩ with hcand
    -- a skipped head candidate is not eligible
    constructor
    · intro prov p' h
      rw [hstep] at h
      split_ifs at h with h1 h2
      · obtain ⟨j, hj1, hj2, hj3, hj4, hj5⟩ := (ih (p + 1)).1 prov p' h
        refine ⟨j + 1, by omega, by omega, ?_, hj4, ?_⟩
        · rw [show p + (j + 1) = p + 1 + j from by omega]
          exact hj3
        · intro i hi c hc
          cases i with
          | zero =>
            rw [Nat.add_zero, hg] at hc
            injection hc with hc
            subst hc
            rintro ⟨hfree, -⟩
            rw [hfree] at h1
            simp at h1
          | succ i =>
            rw [show p + (i + 1) = p + 1 + i from by omega] at hc
            exact hj5 i (by omega) c hc
      · obtain ⟨j, hj1, hj2, hj3, hj4, hj5⟩ := (ih (p + 1)).1 prov p' h
        refine ⟨j + 1, by omega, by omega, ?_, hj4, ?_⟩
        · rw [show p + (j + 1) = p + 1 + j from by omega]
          exact hj3
        · intro i hi c hc
          cases i with
          | zero =>
            rw [Nat.add_zero, hg] at hc
            injection hc with hc
            subst hc
            rintro ⟨-, hqual⟩
            rw [hqual] at h2
            exact Bool.noConfusion h2
          | succ i =>
            rw [show p + (i + 1) = p + 1 + i from by omega] at hc
            exact hj5 i (by omega) c hc
      · simp only [Prod.mk.injEq, Option.some.injEq] at h
        obtain ⟨rfl, rfl⟩ := h
        refine ⟨0, by omega, by omega, by rw [Nat.add_zero]; exact hg, ?_, ?_⟩
        · exact ⟨Option.not_isSome_iff_eq_none.mp h1,
            Bool.not_eq_true _ ▸ Bool.of_not_eq_true h2⟩
        · intro i hi
          exact absurd hi (by omega)
    · intro p' h
      rw [hstep] at h
      split_ifs at h with h1 h2
      · obtain ⟨hj2, hj5⟩ := (ih (p + 1)).2 p' h
        refine ⟨by omega, ?_⟩
        intro i hi c hc
        cases i with
        | zero =>
          rw [Nat.add_zero, hg] at hc
          injection hc with hc
          subst hc
          rintro ⟨hfree, -⟩
          rw [hfree] at h1
          simp at h1
        | succ i =>
          rw [show p + (i + 1) = p + 1 + i from by omega] at hc
          exact hj5 i (by omega) c hc
      · obtain ⟨hj2, hj5⟩ := (ih (p + 1)).2 p' h
        refine ⟨by omega, ?_⟩
        intro i hi c hc
        cases i with
        | zero =>
          rw [Nat.add_zero, hg] at hc
          injection hc with hc
          subst hc
          rintro ⟨-, hqual⟩
          rw [hqual] at h2
          exact Bool.noConfusion h2
        | succ i =>
          rw [show p + (i + 1) = p + 1 + i from by omega] at hc
          exact hj5 i (by omega) c hc
      · simp at h

/-- The provider drawn at cursor position `n` (rotation through the list). -/
def providerAt (provs : List Provider) (hp : provs ≠ []) (n : Nat) : Provider :=
  provs.get ⟨n % provs.length, Nat.mod_lt _ (List.length_pos.mpr hp)⟩

/-- With no qualification requirement and only fresh dates, the shared cursor
makes the date loop assign provider `p+i mod n` to the `i`-th day: the cursor
is threaded from day to day, never reset. -/
theorem runDays_roundRobin (provs : List Provider) (site : String)
    (hp : provs ≠ []) :
    ∀ (k a : Nat) (st : RunState),
      1 ≤ a → a + k ≤ maxOrdinal + 1 →
      (∀ doc ∈ st.assigns, ∃ b, 1 ≤ b ∧ b < a ∧ b ≤ maxOrdinal ∧
        doc.date = dateStr b) →
      runDays provs none site 1 k a st
        = ⟨st.assigns ++ (List.range k).map (fun i =>
              mkAssignment (providerAt provs hp (st.p + i)).id
                (dateStr (a + i)) site),
            st.created + k, st.conflicts, st.p + k⟩ := by
  intro k
  induction k with
  | zero =>
    intro a st _ _ _
    cases st
    simp [runDays]
  | succ k ih =>
    intro a st ha hmax hinv
    have hlen : 0 < provs.length := List.length_pos.mpr hp
    have hmod : st.p % provs.length < provs.length := Nat.mod_lt _ hlen
    have hfree : findOneAssignment st.assigns
        (providerAt provs hp st.p).id (dateStr a) = none := by
      unfold findOneAssignment
      rw [List.find?_eq_none]
      intro doc hdoc
      obtain ⟨b, hb1, hb2, hb3, hbd⟩ := hinv doc hdoc
      simp only [Bool.and_eq_true, beq_iff_eq, not_and]
      intro _ hdate
      rw [hbd] at hdate
      have : b = a := dateStr_inj b a hb1 hb3 (by omega) (by omega) hdate
      omega
    obtain ⟨m, hm⟩ : ∃ m, provs.length = m + 1 := by
      cases provs with
      | nil => exact absurd rfl hp
      | cons q qs => exact ⟨qs.length, rfl⟩
    have hg2 : provs[st.p % provs.length]? = some (providerAt provs hp st.p) := by
      rw [List.getElem?_eq_getElem hmod]
      rfl
    have htry : trySlot provs none (dateStr a) st.assigns provs.length st.p
        = (some (providerAt provs hp st.p), st.p + 1) := by
      rw [hm, trySlot, hg2]
      dsimp only
      rw [if_neg (by rw [hfree]; simp),
        if_neg (show ¬(qualSkip none
          (providerAt provs hp st.p).qualifications = true) from by
            simp [qualSkip])]
    have hst1 : doSlot provs none site (dateStr a) st
        = ⟨st.assigns ++ [mkAssignment (providerAt provs hp st.p).id
              (dateStr a) site],
            st.created + 1, st.conflicts, st.p + 1⟩ := by
      unfold doSlot
      rw [htry]
    have hrec : runDays provs none site 1 (k + 1) a st
        = runDays provs none site 1 k (a + 1)
            (doSlot provs none site (dateStr a) st) := rfl
    have hinv1 : ∀ doc ∈ (st.assigns ++ [mkAssignment
          (providerAt provs hp st.p).id (dateStr a) site]),
        ∃ b, 1 ≤ b ∧ b < a + 1 ∧ b ≤ maxOrdinal ∧ doc.date = dateStr b := by
      intro doc hdoc
      rcases List.mem_append.mp hdoc with h | h
      · obtain ⟨b, hb1, hb2, hb3, hbd⟩ := hinv doc h
        exact ⟨b, hb1, by omega, hb3, hbd⟩
      · simp only [List.mem_singleton] at h
        subst h
        exact ⟨a, ha, by omega, by omega, rfl⟩
    have hih := ih (a + 1)
      ⟨st.assigns ++ [mkAssignment (providerAt provs hp st.p).id
          (dateStr a) site],
        st.created + 1, st.conflicts, st.p + 1⟩
      (by omega) (by omega) hinv1
    have hmaps : (List.range (k + 1)).map (fun i =>
          mkAssignment (providerAt provs hp (st.p + i)).id
            (dateStr (a + i)) site)
        = mkAssignment (providerAt provs hp st.p).id (dateStr a) site ::
          (List.range k).map (fun i =>
            mkAssignment (providerAt provs hp (st.p + 1 + i)).id
              (dateStr (a + 1 + i)) site) := by
      have htail : (List.range k).map ((fun i =>
            mkAssignment (providerAt provs hp (st.p + i)).id
              (dateStr (a + i)) site) ∘ Nat.succ)
          = (List.range k).map (fun i =>
            mkAssignment (providerAt provs hp (st.p + 1 + i)).id
              (dateStr (a + 1 + i)) site) :=
        List.map_congr_left (fun i _ => by
          show mkAssignment (providerAt provs hp (st.p + (i + 1))).id
              (dateStr (a + (i + 1))) site = _
          rw [show st.p + (i + 1) = st.p + 1 + i from by omega,
            show a + (i + 1) = a + 1 + i from by omega])
      rw [List.range_succ_eq_map, List.map_cons, List.map_map, htail]
      simp
    rw [hrec, hst1, hih]
    dsimp only
    rw [hmaps, show st.created + 1 + k = st.created + (k + 1) from by omega,
      show st.p + 1 + k = st.p + (k + 1) from by omega,
      List.append_assoc, List.singleton_append]

/-- C6: the rotation cursor. Part one: each slot examines at most
`providerCount` candidates, drawing `providers[p mod providerCount]` and
incrementing `p` at each draw, stopping early at the first eligible
candidate (and advancing the cursor by exactly `providerCount` when none
is eligible). Part two: the cursor starts at 0 before the date loop and is
threaded through the whole range without per-day reset: on a fresh store
with no qualification requirement, day `i` is staffed by provider
`i mod providerCount`, continuing the rotation across day boundaries. -/
theorem rotation_cursor :
    (∀ (provs : List Provider) (nq : Option String) (ds : String)
        (assigns : List AssignmentDoc), provs ≠ [] → ∀ p : Nat,
      (∀ prov p', trySlot provs nq ds assigns provs.length p = (some prov, p') →
        ∃ j, j < provs.length ∧ p' = p + j + 1 ∧
          provs[(p + j) % provs.length]? = some prov ∧
          isEligible assigns nq ds prov ∧
          (∀ i < j, ∀ cand, provs[(p + i) % provs.length]? = some cand →
            ¬ isEligible assigns nq ds cand)) ∧
      (∀ p', trySlot provs nq ds assigns provs.length p = (none, p') →
        p' = p + provs.length ∧
        ∀ i < provs.length, ∀ cand,
          provs[(p + i) % provs.length]? = some cand →
            ¬ isEligible assigns nq ds cand)) ∧
    (∀ (req : GenerateRequest) (store : Store) (s0 : ShiftType),
      store.shiftTypes.filter (fun s => s.name == "REG") = [s0] →
      s0.requires_qualification = none →
      store.assignments = [] →
      ∀ hp : store.providers ≠ [],
      1 ≤ req.start_date → req.start_date ≤ req.end_date →
      req.end_date ≤ maxOrdinal →
      generate_schedule req store
        = (.ok ⟨req.end_date - req.start_date + 1, []⟩,
            { store with assignments :=
                (List.range (req.end_date - req.start_date + 1)).map (fun i =>
                  mkAssignment (providerAt store.providers hp i).id
                    (dateStr (req.start_date + i)) s0.site) })) := by
  constructor
  · intro provs nq ds assigns hp p
    exact trySlot_char provs nq ds assigns hp provs.length p
  · intro req store s0 hs hq ha hp hb1 hse hb2
    obtain ⟨p0, ps, hps⟩ := List.exists_cons_of_ne_nil hp
    have hmin : min store.providers.length ([s0] : List ShiftType).length = 1 := by
      have : 0 < store.providers.length := List.length_pos.mpr hp
      simp only [List.length_singleton]
      omega
    have hgen : generate_schedule req store
        = (.ok ⟨(runDays store.providers s0.requires_qualification s0.site 1
              (((req.end_date : Int) - (req.start_date : Int) + 1).toNat)
              req.start_date ⟨store.assignments, 0, [], 0⟩).created,
            (runDays store.providers s0.requires_qualification s0.site 1
              (((req.end_date : Int) - (req.start_date : Int) + 1).toNat)
              req.start_date ⟨store.assignments, 0, [], 0⟩).conflicts⟩,
          { store with assignments :=
              (runDays store.providers s0.requires_qualification s0.site 1
                (((req.end_date : Int) - (req.start_date : Int) + 1).toNat)
                req.start_date ⟨store.assignments, 0, [], 0⟩).assigns }) := by
      unfold generate_schedule
      rw [hs]
      rw [hps]
      dsimp only
      rw [← hps, hmin]
    rw [hgen, hq, ha]
    have hdaysN : (((req.end_date : Int) - (req.start_date : Int) + 1)).toNat
        = req.end_date - req.start_date + 1 := by omega
    rw [hdaysN]
    rw [runDays_roundRobin store.providers s0.site hp
      (req.end_date - req.start_date + 1) req.start_date ⟨[], 0, [], 0⟩
      hb1 (by omega) (by intro doc hdoc; exact absurd hdoc (List.not_mem_nil doc))]
    simp only [Nat.zero_add, List.nil_append]

theorem rotation_cursor_witness :
    generate_schedule ⟨1, 2⟩
        ⟨[demoProvider "A" [], demoProvider "B" []], [demoShift none], []⟩
      = (.ok ⟨2, []⟩,
          ⟨[demoProvider "A" [], demoProvider "B" []], [demoShift none],
            [mkAssignment "A" (dateStr 1) "S",
              mkAssignment "B" (dateStr 2) "S"]⟩) := by
  have h := rotation_cursor.2 ⟨1, 2⟩
    ⟨[demoProvider "A" [], demoProvider "B" []], [demoShift none], []⟩
    (demoShift none) (by rfl) (by rfl) (by rfl) (by simp) (by decide)
    (by decide) (by decide)
  rw [h]
  rfl

end Orchestrator
